import Mathlib

set_option maxRecDepth 8000

/-!
Verification of the measure-sfn pipeline (src/main.go).

The program fetches AWS Step Functions executions, filters them (both
timestamps present, start within the last 2 calendar months), builds
SfnRecord values (duration = stop - start, name = 7th colon-field of the
state machine ARN, start date formatted as YYYY-MM-DD), writes a raw CSV,
then groups by name and writes an aggregate CSV with max/min/avg/len.

Shallow embedding conventions:
  - time.Time instants and time.Duration values are modelled as Int
    nanoseconds (UTC, unbounded: int64 overflow is out of scope);
  - Go integer division on Duration is truncation toward zero, Int.tdiv;
  - fmt.Sprintf with the %.2f verb is modelled faithfully through IEEE
    binary64: Seconds() is the correctly-rounded (nearest, ties to even)
    double of nsec/1e9 added to the exact integral seconds, and %.2f is
    the correct rounding of that double to 2 decimals, ties to even (the
    sign of a negative zero is not modelled);
  - fallible operations (indexing the first element of an empty group,
    dividing by the length of an empty group, both of which panic in Go)
    return Option.
-/

/-! ### Calendar arithmetic (Go time.Time.AddDate and Format(time.DateOnly)) -/

def nsPerDay : Int := 86400 * 1000000000

/-- Proleptic-Gregorian civil date (year, month, day) of a day count where
day 0 is 1970-01-01, as computed by Go's time package. -/
def civilFromDays (z0 : Int) : Int × Int × Int :=
  let z := z0 + 719468
  let era : Int := z.fdiv 146097
  let doe : Int := z - era * 146097
  let yoe : Int := (doe - doe.fdiv 1460 + doe.fdiv 36524 - doe.fdiv 146096).fdiv 365
  let y : Int := yoe + era * 400
  let doy : Int := doe - (365 * yoe + yoe.fdiv 4 - yoe.fdiv 100)
  let mp : Int := (5 * doy + 2).fdiv 153
  let d : Int := doy - (153 * mp + 2).fdiv 5 + 1
  let m : Int := mp + (if mp < 10 then 3 else -9)
  (y + (if m ≤ 2 then 1 else 0), m, d)

/-- Day count (day 0 = 1970-01-01) of a civil (year, month, day) with
month in 1..12; the day may lie outside the month and is normalized by
linear extrapolation, exactly as Go's time.Date does. -/
def daysFromCivil (y0 m d : Int) : Int :=
  let y := y0 - (if m ≤ 2 then 1 else 0)
  let era := y.fdiv 400
  let yoe := y - era * 400
  let doy := (153 * (m + (if m > 2 then -3 else 9)) + 2).fdiv 5 + d - 1
  let doe := yoe * 365 + yoe.fdiv 4 - yoe.fdiv 100 + doy
  era * 146097 + doe - 719468

/-- Go time.Time.AddDate(years, months, days) on an instant t (ns since the
Unix epoch, UTC): split into civil date and time of day, shift the date
fields, renormalize (months by floor division into years, day overflow by
extrapolation), keep the time of day. -/
def addDateGo (t : Int) (years months days : Int) : Int :=
  let day := t.fdiv nsPerDay
  let tod := t - day * nsPerDay
  let c := civilFromDays day
  let m0 := c.2.1 - 1 + months
  let y2 := c.1 + years + m0.fdiv 12
  let m2 := m0.fmod 12 + 1
  (daysFromCivil y2 m2 (c.2.2 + days)) * nsPerDay + tod

def pad2 (n : Nat) : String := if n < 10 then "0" ++ toString n else toString n

def pad4 (n : Nat) : String :=
  if n < 10 then "000" ++ toString n
  else if n < 100 then "00" ++ toString n
  else if n < 1000 then "0" ++ toString n
  else toString n

/-- Go t.Format(time.DateOnly): the YYYY-MM-DD rendering of the civil date
of the instant t (ns since the Unix epoch, UTC). -/
def dateOnlyString (t : Int) : String :=
  let c := civilFromDays (t.fdiv nsPerDay)
  let ys := if c.1 < 0 then "-" ++ pad4 (-c.1).toNat else pad4 c.1.toNat
  ys ++ "-" ++ pad2 c.2.1.toNat ++ "-" ++ pad2 c.2.2.toNat

/-! ### Duration formatting (fmt.Sprintf "%.2f" on d.Seconds()) -/

/-- Round m / 2e7 half up, for a nanosecond magnitude m: the number of
hundredths of a second in m, rounded half away from zero.  This is the
exact (infinite-precision) decimal rounding, used as the spec-side ideal
against which the program's float64 output is compared. -/
def roundHundredthsNat (m : Nat) : Nat := (2 * m + 10000000) / 20000000

/-- The signed number of hundredths of a second in a duration of d
nanoseconds, rounded half away from zero, exactly on the integers. -/
def roundHundredths (d : Int) : Int :=
  if 0 ≤ d then ((roundHundredthsNat d.toNat : Nat) : Int)
  else -((roundHundredthsNat (-d).toNat : Nat) : Int)

/-- Render a signed count of hundredths of a second as a decimal string
with exactly two fraction digits, the shape %.2f produces. -/
def renderHundredths (h : Int) : String :=
  let a := h.natAbs
  let s := toString (a / 100) ++ "." ++ pad2 (a % 100)
  if h < 0 then "-" ++ s else s

/-- Number of binary digits of n, with explicit fuel (structural, so the
kernel can evaluate it). -/
def bitLen : Nat → Nat → Nat
  | 0, _ => 0
  | fuel + 1, n => if n = 0 then 0 else bitLen fuel (n / 2) + 1

/-- Round the rational N / D to the nearest integer, ties to even. -/
def roundNearestEven (N D : Nat) : Nat :=
  let q := N / D
  let r := N % D
  if 2 * r > D ∨ (2 * r = D ∧ q % 2 = 1) then q + 1 else q

/-- The IEEE binary64 value nearest to the positive rational num / den
(ties to even), as a pair (m, e) meaning m * 2 ^ e with the normalized
mantissa m in [2^52, 2^53).  Subnormals and overflow are outside the
magnitudes this program formats. -/
def doubleOfRat (num den : Nat) : Nat × Int :=
  if num = 0 ∨ den = 0 then (0, 0)
  else
    let L := bitLen 400 (num * 2 ^ 126 / den)
    let t : Int := 179 - (L : Int)
    let N := if 0 ≤ t then num * 2 ^ t.toNat else num
    let D := if 0 ≤ t then den else den * 2 ^ (-t).toNat
    let m := roundNearestEven N D
    if m = 2 ^ 53 then (2 ^ 52, 1 - t) else (m, -t)

/-- Go (time.Duration).Seconds() on a magnitude of a nanoseconds:
float64(sec) + float64(nsec)/1e9, i.e. the correctly rounded double of
nsec/1e9 added (with one more correct rounding) to the exact integral
seconds.  Returned as a binary64 (mantissa, exponent) pair. -/
def goSecondsDouble (a : Nat) : Nat × Int :=
  let sec := a / 1000000000
  let nsec := a % 1000000000
  let x1 := doubleOfRat nsec 1000000000
  let k := (-x1.2).toNat
  doubleOfRat (sec * 2 ^ k + x1.1) (2 ^ k)

/-- fmt.Sprintf("%.2f", d.Seconds()): the exact binary64 value of
Seconds() rounded to hundredths, ties to even (strconv rounds the exact
decimal expansion of the double, round-half-to-even at the cut).  The
sign of a negative zero is dropped. -/
def goFloatHundredths (d : Int) : Int :=
  if d = 0 then 0
  else
    let x := goSecondsDouble d.natAbs
    let h : Nat :=
      if 0 ≤ x.2 then x.1 * 100 * 2 ^ x.2.toNat
      else roundNearestEven (x.1 * 100) (2 ^ (-x.2).toNat)
    if d < 0 then -(h : Int) else (h : Int)

/-- Go durationToSeconfString: fmt.Sprintf("%.2f", d.Seconds()) on the
float64 value of Seconds(). -/
def durationToSeconfString (d : Int) : String := renderHundredths (goFloatHundredths d)

/-! ### Records and the transform step (main's execution loop) -/

structure SfnRecord where
  Name : String
  StartDate : String
  Duration : Int
  Status : String
deriving DecidableEq, Repr

abbrev SfnRecords := List SfnRecord

/-- Go (SfnRecord).StringDurationSecond. -/
def SfnRecord.StringDurationSecond (r : SfnRecord) : String :=
  durationToSeconfString r.Duration

/-- Go strings.Split semantics on a character list: split around every
occurrence of sep; the empty input yields one empty field. -/
def splitChar (sep : Char) : List Char → List (List Char)
  | [] => [[]]
  | c :: cs =>
    match splitChar sep cs with
    | [] => [[c]]
    | f :: rest => if c = sep then [] :: f :: rest else (c :: f) :: rest

/-- strings.Split(arn, ":")[6] of main.go; out-of-range indexing (an ARN
with fewer than 7 colon-fields), which panics in Go, is totalized to "". -/
def machineName (arn : String) : String := ⟨(splitChar ':' arn.data).getD 6 []⟩

/-- One raw execution as returned by ListExecutions: optional start and
stop timestamps (ns since the Unix epoch) and a status string. -/
structure Execution where
  StartDate : Option Int
  StopDate : Option Int
  Status : String

/-- The body of main's inner loop for one execution: skip if either
timestamp is missing, skip if the start is before now minus 2 calendar
months, otherwise build the SfnRecord. -/
def transformExecution (now : Int) (arn : String) (e : Execution) : Option SfnRecord :=
  match e.StartDate, e.StopDate with
  | some st, some sp =>
    if st < addDateGo now 0 (-2) 0 then none
    else some { Name := machineName arn
                StartDate := dateOnlyString st
                Duration := sp - st
                Status := e.Status }
  | _, _ => none

/-- main's double loop over state machines and their executions, collecting
the surviving records in discovery order. -/
def collectRecords (now : Int) (machines : List (String × List Execution)) : SfnRecords :=
  machines.flatMap (fun m => m.2.filterMap (transformExecution now m.1))

/-! ### Aggregation (MaxDuration, MinDuration, AvgDuration, Len, aggregate) -/

/-- Go (SfnRecords).MaxDuration: seeded with r[0].Duration (a panic on an
empty slice, hence none), then a running maximum over the whole slice. -/
def SfnRecords.MaxDuration (r : SfnRecords) : Option Int :=
  match r with
  | [] => none
  | x :: _ =>
    some (List.foldl (fun m q => if q.Duration > m then q.Duration else m) x.Duration r)

/-- Go (SfnRecords).MinDuration: seeded with r[0].Duration (a panic on an
empty slice, hence none), then a running minimum over the whole slice. -/
def SfnRecords.MinDuration (r : SfnRecords) : Option Int :=
  match r with
  | [] => none
  | x :: _ =>
    some (List.foldl (fun m q => if q.Duration < m then q.Duration else m) x.Duration r)

/-- Go (SfnRecords).AvgDuration: the sum of durations divided by the
length with Go's truncating int64 division (a division by zero on an
empty slice panics, hence none). -/
def SfnRecords.AvgDuration (r : SfnRecords) : Option Int :=
  match r with
  | [] => none
  | _ :: _ =>
    some (Int.tdiv (List.foldl (fun t q => t + q.Duration) 0 r) (r.length : Int))

/-- Go (SfnRecords).Len. -/
def SfnRecords.Len (r : SfnRecords) : Nat := r.length

/-- The contents of the Go map built by (SfnRecords).aggregate, as the
function from a name to the slice accumulated under that key: the loop
appends each record to the slice at its name. -/
def aggregateMap (r : SfnRecords) : String → SfnRecords :=
  List.foldl (fun m q => fun k => if k = q.Name then m k ++ [q] else m k) (fun _ => []) r

/-- The key set of the Go map built by aggregate, listed in first-insertion
order (Go's map iteration order is unspecified; no claim depends on the
order, only on the set). -/
def aggregateKeys (r : SfnRecords) : List String :=
  List.foldl (fun ks q => if q.Name ∈ ks then ks else ks ++ [q.Name]) [] r

/-! ### CSV rows (createCsvFile and createAggregateCsvFile) -/

/-- The rows createCsvFile hands to the csv writer: the fixed header, then
one row per record in list order. -/
def rawCsvRows (records : SfnRecords) : List (List String) :=
  ["Name", "StartDate", "Duration", "Status"] ::
    records.map (fun q => [q.Name, q.StartDate, q.StringDurationSecond, q.Status])

/-- The rows createAggregateCsvFile hands to the csv writer: the fixed
header, then one row per group (keys in first-insertion order; Go iterates
the map in unspecified order).  The getD 0 defaults are unreachable: every
listed key has a non-empty group. -/
def aggregateCsvRows (r : SfnRecords) : List (List String) :=
  ["Name", "Max", "Min", "Avg", "Len"] ::
    (aggregateKeys r).map (fun name =>
      let g := aggregateMap r name
      [name,
       durationToSeconfString (g.MaxDuration.getD 0),
       durationToSeconfString (g.MinDuration.getD 0),
       durationToSeconfString (g.AvgDuration.getD 0),
       toString g.Len])

/-! ### Helper views of the aggregation folds -/

/-- The running maximum of MaxDuration, seed made explicit. -/
def runMax (a : Int) (l : List SfnRecord) : Int :=
  List.foldl (fun m q => if q.Duration > m then q.Duration else m) a l

/-- The running minimum of MinDuration, seed made explicit. -/
def runMin (a : Int) (l : List SfnRecord) : Int :=
  List.foldl (fun m q => if q.Duration < m then q.Duration else m) a l

/-- The running total of AvgDuration, seed made explicit. -/
def runSum (a : Int) (l : List SfnRecord) : Int :=
  List.foldl (fun t q => t + q.Duration) a l

/-! ### Spec-side comparison point for the average (claim C5) -/

/-- The exact rational average S / n of a duration total over a count,
expressed in hundredths of a second rounded half away from zero: the
rounding of S / (n * 1e7), computed exactly on integers.  This follows
the spec's words ("the exact (rational) average of the durations"), for
comparison with the implementation's truncating division. -/
def specExactAvgHundredths (S : Int) (n : Nat) : Int :=
  if 0 ≤ S then (((2 * S.toNat + n * 10000000) / (n * 20000000) : Nat) : Int)
  else -(((2 * (-S).toNat + n * 10000000) / (n * 20000000) : Nat) : Int)

/-- The exact rational average rounded to 2 decimal places and rendered,
the spec-side string against which the implementation's formatted average
is compared. -/
def specExactAvgFormatted (S : Int) (n : Nat) : String :=
  renderHundredths (specExactAvgHundredths S n)

/-! ### The CSV encoding (encoding/csv Writer with default settings) -/

/-- The characters that force quoting with the default comma delimiter:
the delimiter itself, the quote, CR and LF. -/
def isCsvSpecial (c : Char) : Bool :=
  c = ',' || c = '"' || c = '\r' || c = '\n'

/-- unicode.IsSpace restricted to the code points Go checks for the first
rune of a field (the Latin-1 range of the space property). -/
def goIsSpace (c : Char) : Bool :=
  c = ' ' || c = '\t' || c = '\n' || c = Char.ofNat 11 || c = Char.ofNat 12 ||
    c = '\r' || c = Char.ofNat 133 || c = Char.ofNat 160

/-- encoding/csv fieldNeedsQuotes: the empty field is bare; a field is
quoted when it is the literal backslash-dot, contains the delimiter, a
quote, CR or LF, or starts with white space. -/
def fieldNeedsQuotes (f : List Char) : Bool :=
  match f with
  | [] => false
  | c :: _ => f == ['\\', '.'] || f.any isCsvSpecial || goIsSpace c

/-- Inside a quoted field the writer doubles every quote (with UseCRLF
false, CR and LF pass through unchanged). -/
def escapeQuotes : List Char → List Char
  | [] => []
  | c :: cs => if c = '"' then '"' :: '"' :: escapeQuotes cs else c :: escapeQuotes cs

/-- One written field: quoted and escaped when needed, bare otherwise. -/
def writeField (f : List Char) : List Char :=
  if fieldNeedsQuotes f then '"' :: (escapeQuotes f ++ ['"']) else f

/-- Fields of a row joined by the comma delimiter. -/
def joinFields : List (List Char) → List Char
  | [] => []
  | [f] => f
  | f :: fs => f ++ ',' :: joinFields fs

/-- One written record: delimited fields terminated by a newline
(UseCRLF is false). -/
def csvWriteRow (row : List String) : List Char :=
  joinFields (row.map (fun f => writeField f.data)) ++ ['\n']

/-- The full file body csv.Writer produces for a row list. -/
def csvWrite (rows : List (List String)) : List Char :=
  (rows.map csvWriteRow).flatten

/-! ### The CSV decoding (encoding/csv Reader with default settings) -/

/-- Parser modes of the reader: at a record boundary (possibly skipping
blank lines), at a field boundary, inside a bare field, inside a quoted
field, just after a quote inside a quoted field, or holding a pending CR
whose treatment depends on the following character. -/
inductive CsvMode where
  | lineStart
  | crAtLineStart
  | fieldStart
  | unquoted
  | crInUnquoted
  | quoted
  | crInQuoted
  | quoteInQuoted
  | crAfterQuote
deriving DecidableEq, Repr

structure CsvState where
  rows : List (List String)
  row : List String
  field : List Char
  mode : CsvMode
deriving DecidableEq, Repr

/-- One character of csv.Reader: blank lines are skipped, a CR directly
before an LF is dropped (the pair reads as a line end outside quotes and
as a plain LF inside quotes), a quote inside a bare field and a stray
character after a closing quote are errors (LazyQuotes is false). -/
def csvStep (s : CsvState) (c : Char) : Option CsvState :=
  match s.mode with
  | .lineStart =>
    if c = '\n' then some s
    else if c = '\r' then some { s with mode := .crAtLineStart }
    else if c = '"' then some { s with mode := .quoted }
    else if c = ',' then some { s with row := s.row ++ [""], mode := .fieldStart }
    else some { s with field := [c], mode := .unquoted }
  | .crAtLineStart =>
    if c = '\n' then some { s with mode := .lineStart }
    else if c = '\r' then some { s with field := ['\r'], mode := .crInUnquoted }
    else if c = '"' then none
    else if c = ',' then some { s with row := s.row ++ ["\r"], mode := .fieldStart }
    else some { s with field := ['\r', c], mode := .unquoted }
  | .fieldStart =>
    if c = '\n' then
      some { s with rows := s.rows ++ [s.row ++ [""]], row := [], mode := .lineStart }
    else if c = '\r' then some { s with mode := .crInUnquoted }
    else if c = '"' then some { s with mode := .quoted }
    else if c = ',' then some { s with row := s.row ++ [""], mode := .fieldStart }
    else some { s with field := [c], mode := .unquoted }
  | .unquoted =>
    if c = '\n' then
      some { s with rows := s.rows ++ [s.row ++ [String.mk s.field]], row := [], field := [],
                    mode := .lineStart }
    else if c = '\r' then some { s with mode := .crInUnquoted }
    else if c = '"' then none
    else if c = ',' then
      some { s with row := s.row ++ [String.mk s.field], field := [], mode := .fieldStart }
    else some { s with field := s.field ++ [c] }
  | .crInUnquoted =>
    if c = '\n' then
      some { s with rows := s.rows ++ [s.row ++ [String.mk s.field]], row := [], field := [],
                    mode := .lineStart }
    else if c = '\r' then some { s with field := s.field ++ ['\r'] }
    else if c = '"' then none
    else if c = ',' then
      some { s with row := s.row ++ [String.mk (s.field ++ ['\r'])], field := [],
                    mode := .fieldStart }
    else some { s with field := s.field ++ ['\r', c], mode := .unquoted }
  | .quoted =>
    if c = '"' then some { s with mode := .quoteInQuoted }
    else if c = '\r' then some { s with mode := .crInQuoted }
    else some { s with field := s.field ++ [c] }
  | .crInQuoted =>
    if c = '\n' then some { s with field := s.field ++ ['\n'], mode := .quoted }
    else if c = '"' then some { s with field := s.field ++ ['\r'], mode := .quoteInQuoted }
    else if c = '\r' then some { s with field := s.field ++ ['\r'] }
    else some { s with field := s.field ++ ['\r', c], mode := .quoted }
  | .quoteInQuoted =>
    if c = '"' then some { s with field := s.field ++ ['"'], mode := .quoted }
    else if c = ',' then
      some { s with row := s.row ++ [String.mk s.field], field := [], mode := .fieldStart }
    else if c = '\n' then
      some { s with rows := s.rows ++ [s.row ++ [String.mk s.field]], row := [], field := [],
                    mode := .lineStart }
    else if c = '\r' then some { s with mode := .crAfterQuote }
    else none
  | .crAfterQuote =>
    if c = '\n' then
      some { s with rows := s.rows ++ [s.row ++ [String.mk s.field]], row := [], field := [],
                    mode := .lineStart }
    else none

/-- Run the reader over a character list from a (possibly failed) state. -/
def runM (s : Option CsvState) (cs : List Char) : Option CsvState :=
  cs.foldl (fun a c => a.bind (fun st => csvStep st c)) s

/-- End-of-input: flush the open field and record; inside a quoted field
the input is malformed (unterminated quote). -/
def csvFinish (s : CsvState) : Option (List (List String)) :=
  match s.mode with
  | .lineStart => some s.rows
  | .crAtLineStart => some (s.rows ++ [s.row ++ ["\r"]])
  | .fieldStart => some (s.rows ++ [s.row ++ [""]])
  | .unquoted => some (s.rows ++ [s.row ++ [String.mk s.field]])
  | .crInUnquoted => some (s.rows ++ [s.row ++ [String.mk (s.field ++ ['\r'])]])
  | .quoted => none
  | .crInQuoted => none
  | .quoteInQuoted => some (s.rows ++ [s.row ++ [String.mk s.field]])
  | .crAfterQuote => none

/-- csv.Reader.ReadAll: run the machine, flush, and enforce that every
record has the same number of fields as the first. -/
def csvParse (cs : List Char) : Option (List (List String)) :=
  match runM (some (CsvState.mk [] [] [] .lineStart)) cs with
  | none => none
  | some s =>
    match csvFinish s with
    | none => none
    | some rows =>
      match rows with
      | [] => some []
      | r0 :: rest => if rest.all (fun r => r.length == r0.length) then some (r0 :: rest) else none

/-- Is the first character an LF? -/
def headIsLF : List Char → Bool
  | [] => false
  | c :: _ => c == '\n'

/-- Does a CR immediately followed by an LF occur?  csv.Reader rewrites
every such pair, so only fields free of this sequence round-trip. -/
def hasCRLF : List Char → Bool
  | [] => false
  | c :: cs => (c == '\r' && headIsLF cs) || hasCRLF cs

example : dateOnlyString (19723 * nsPerDay) = "2024-01-01" := by decide
example : addDateGo (19813 * nsPerDay) 0 (-2) 0 = 19753 * nsPerDay := by decide
example : addDateGo (19966 * nsPerDay + 5) 0 (-2) 0 = 19905 * nsPerDay + 5 := by decide
example : durationToSeconfString 3661500000000 = "3661.50" := by decide
example : machineName "arn:aws:states:us-east-1:123456789012:stateMachine:my-machine" = "my-machine" := by decide

/-! ### Claim C4: executions missing a timestamp are skipped -/

/-- C4: for every execution lacking either a start timestamp or a stop
timestamp, the transform step produces no ExecutionRecord. -/
theorem C4_missing_timestamp_skipped (now : Int) (arn : String) (e : Execution)
    (h : e.StartDate = none ∨ e.StopDate = none) :
    transformExecution now arn e = none := by
  cases hsd : e.StartDate <;> cases hsp : e.StopDate <;>
    simp_all [transformExecution]

/-- Witness for C4 at a concrete incomplete execution. -/
theorem C4_missing_timestamp_skipped_witness :
    transformExecution 0 "arn" ⟨some 5, none, "RUNNING"⟩ = none :=
  C4_missing_timestamp_skipped 0 "arn" ⟨some 5, none, "RUNNING"⟩ (Or.inr rfl)

/-! ### Claim C1: fields of a produced record -/

/-- C1: every record the transform step produces has duration equal to the
stop timestamp minus the start timestamp, name equal to the 7th
colon-delimited field of the state machine ARN (whenever the ARN has at
least 7 fields), start date equal to the start timestamp formatted as a
calendar date only (insensitive to the time of day), and a formatted
duration string equal to the duration's total seconds rounded to 2 decimal
places, e.g. 3661.5 s renders as "3661.50". -/
theorem C1_record_fields (now : Int) (arn : String) (e : Execution) (r : SfnRecord)
    (h : transformExecution now arn e = some r) :
    (∃ st sp, e.StartDate = some st ∧ e.StopDate = some sp ∧
        r.Duration = sp - st ∧
        r.StartDate = dateOnlyString st ∧
        r.StartDate = dateOnlyString (st.fdiv nsPerDay * nsPerDay)) ∧
    (∀ hlen : 6 < (splitChar ':' arn.data).length,
        r.Name = ⟨(splitChar ':' arn.data).get ⟨6, hlen⟩⟩) ∧
    r.StringDurationSecond = durationToSeconfString r.Duration ∧
    durationToSeconfString 3661500000000 = "3661.50" := by
  cases hsd : e.StartDate with
  | none => simp [transformExecution, hsd] at h
  | some st =>
    cases hsp : e.StopDate with
    | none => simp [transformExecution, hsd, hsp] at h
    | some sp =>
      simp only [transformExecution, hsd, hsp] at h
      by_cases hc : st < addDateGo now 0 (-2) 0
      · simp [hc] at h
      · simp only [if_neg hc, Option.some.injEq] at h
        subst h
        refine ⟨⟨st, sp, rfl, rfl, rfl, rfl, ?_⟩, ?_, rfl, by decide⟩
        · show dateOnlyString st = dateOnlyString (st.fdiv nsPerDay * nsPerDay)
          unfold dateOnlyString
          rw [Int.mul_fdiv_cancel _ (by decide : nsPerDay ≠ 0)]
        · intro hlen
          show machineName arn = _
          unfold machineName
          rw [List.getD_eq_getElem?_getD, List.getElem?_eq_getElem hlen]
          rfl

/-- Witness for C1 at a concrete execution that survives the filters. -/
theorem C1_record_fields_witness :
    (∃ st sp,
        (Execution.mk (some (19813 * nsPerDay + 7)) (some (19813 * nsPerDay + 12)) "SUCCEEDED").StartDate = some st ∧
        (Execution.mk (some (19813 * nsPerDay + 7)) (some (19813 * nsPerDay + 12)) "SUCCEEDED").StopDate = some sp ∧
        (SfnRecord.mk "my-machine" "2024-03-31" 5 "SUCCEEDED").Duration = sp - st ∧
        (SfnRecord.mk "my-machine" "2024-03-31" 5 "SUCCEEDED").StartDate = dateOnlyString st ∧
        (SfnRecord.mk "my-machine" "2024-03-31" 5 "SUCCEEDED").StartDate =
          dateOnlyString (st.fdiv nsPerDay * nsPerDay)) ∧
    (∀ hlen : 6 < (splitChar ':' "arn:aws:states:us-east-1:123456789012:stateMachine:my-machine".data).length,
        (SfnRecord.mk "my-machine" "2024-03-31" 5 "SUCCEEDED").Name =
          ⟨(splitChar ':' "arn:aws:states:us-east-1:123456789012:stateMachine:my-machine".data).get ⟨6, hlen⟩⟩) ∧
    (SfnRecord.mk "my-machine" "2024-03-31" 5 "SUCCEEDED").StringDurationSecond =
      durationToSeconfString (SfnRecord.mk "my-machine" "2024-03-31" 5 "SUCCEEDED").Duration ∧
    durationToSeconfString 3661500000000 = "3661.50" :=
  C1_record_fields (19813 * nsPerDay) "arn:aws:states:us-east-1:123456789012:stateMachine:my-machine"
    (Execution.mk (some (19813 * nsPerDay + 7)) (some (19813 * nsPerDay + 12)) "SUCCEEDED")
    (SfnRecord.mk "my-machine" "2024-03-31" 5 "SUCCEEDED") (by decide)

/-! ### Claim C3: the 2-calendar-month retention window -/

/-- C3: an execution whose start timestamp is strictly earlier than now
minus 2 calendar months produces no record, and an execution exactly at
the 2-month cutoff (with both timestamps present) is included: the skip
test is strict. -/
theorem C3_retention_window (now : Int) (arn : String) (e : Execution) (st sp : Int)
    (hst : e.StartDate = some st) (hsp : e.StopDate = some sp) :
    (st < addDateGo now 0 (-2) 0 → transformExecution now arn e = none) ∧
    (st = addDateGo now 0 (-2) 0 → (transformExecution now arn e).isSome = true) := by
  constructor
  · intro hlt
    simp [transformExecution, hst, hsp, hlt]
  · intro heq
    simp [transformExecution, hst, hsp, heq]

/-- Witness for C3 at now = 2024-03-31T00:00:00Z (cutoff 2024-01-31): an
execution starting exactly at the cutoff is kept, one starting 1 ns
earlier is dropped. -/
theorem C3_retention_window_witness :
    ((transformExecution (19813 * nsPerDay) "a:b:c:d:e:f:g"
        (Execution.mk (some (19753 * nsPerDay)) (some (19813 * nsPerDay)) "SUCCEEDED")).isSome = true) ∧
    (transformExecution (19813 * nsPerDay) "a:b:c:d:e:f:g"
        (Execution.mk (some (19753 * nsPerDay - 1)) (some (19813 * nsPerDay)) "SUCCEEDED") = none) :=
  ⟨(C3_retention_window (19813 * nsPerDay) "a:b:c:d:e:f:g"
      (Execution.mk (some (19753 * nsPerDay)) (some (19813 * nsPerDay)) "SUCCEEDED")
      (19753 * nsPerDay) (19813 * nsPerDay) rfl rfl).2 (by decide),
   (C3_retention_window (19813 * nsPerDay) "a:b:c:d:e:f:g"
      (Execution.mk (some (19753 * nsPerDay - 1)) (some (19813 * nsPerDay)) "SUCCEEDED")
      (19753 * nsPerDay - 1) (19813 * nsPerDay) rfl rfl).1 (by decide)⟩

/-! ### Claim C6: sign of the produced duration -/

/-- C6 counterexample: the transform step performs no ordering check on the
two timestamps, so an execution whose stop timestamp precedes its start
timestamp yields a record with a strictly negative duration. -/
theorem C6_counterexample :
    transformExecution (19813 * nsPerDay) "a:b:c:d:e:f:g"
        (Execution.mk (some (19813 * nsPerDay)) (some (19813 * nsPerDay - 1)) "SUCCEEDED")
      = some (SfnRecord.mk "g" "2024-03-31" (-1) "SUCCEEDED") ∧
    ¬ (0 ≤ (-1 : Int)) := by
  exact ⟨by decide, by decide⟩

/-- C6 (amended): every record the transform step creates comes from an
execution with both timestamps present and has duration = stop - start;
whenever the stop timestamp is at or after the start timestamp, that
duration is nonnegative. -/
theorem C6_duration_nonneg (now : Int) (arn : String) (e : Execution) (r : SfnRecord)
    (h : transformExecution now arn e = some r) :
    ∃ st sp, e.StartDate = some st ∧ e.StopDate = some sp ∧
      r.Duration = sp - st ∧ (st ≤ sp → 0 ≤ r.Duration) := by
  cases hsd : e.StartDate with
  | none => simp [transformExecution, hsd] at h
  | some st =>
    cases hsp : e.StopDate with
    | none => simp [transformExecution, hsd, hsp] at h
    | some sp =>
      simp only [transformExecution, hsd, hsp] at h
      by_cases hc : st < addDateGo now 0 (-2) 0
      · simp [hc] at h
      · simp only [if_neg hc, Option.some.injEq] at h
        subst h
        exact ⟨st, sp, rfl, rfl, rfl, fun hle => by simpa using Int.sub_nonneg.mpr hle⟩

/-- Witness for C6 (amended) at a concrete completed execution. -/
theorem C6_duration_nonneg_witness :
    ∃ st sp,
      (Execution.mk (some (19813 * nsPerDay)) (some (19813 * nsPerDay + 3)) "SUCCEEDED").StartDate = some st ∧
      (Execution.mk (some (19813 * nsPerDay)) (some (19813 * nsPerDay + 3)) "SUCCEEDED").StopDate = some sp ∧
      (SfnRecord.mk "g" "2024-03-31" 3 "SUCCEEDED").Duration = sp - st ∧
      (st ≤ sp → 0 ≤ (SfnRecord.mk "g" "2024-03-31" 3 "SUCCEEDED").Duration) :=
  C6_duration_nonneg (19813 * nsPerDay) "a:b:c:d:e:f:g"
    (Execution.mk (some (19813 * nsPerDay)) (some (19813 * nsPerDay + 3)) "SUCCEEDED")
    (SfnRecord.mk "g" "2024-03-31" 3 "SUCCEEDED") (by decide)

/-! ### Fold lemmas for the aggregation -/

theorem runMax_spec (l : List SfnRecord) : ∀ a : Int,
    (runMax a l = a ∨ runMax a l ∈ l.map SfnRecord.Duration) ∧
    a ≤ runMax a l ∧ ∀ d ∈ l.map SfnRecord.Duration, d ≤ runMax a l := by
  induction l with
  | nil => intro a; simp [runMax]
  | cons q l ih =>
    intro a
    have step : runMax a (q :: l) = runMax (if q.Duration > a then q.Duration else a) l := rfl
    obtain ⟨hmem, hle, hub⟩ := ih (if q.Duration > a then q.Duration else a)
    rw [step]
    refine ⟨?_, ?_, ?_⟩
    · rcases hmem with hmem | hmem
      · rw [hmem]
        by_cases hqa : q.Duration > a
        · simp [hqa]
        · simp [hqa]
      · right
        simp only [List.map_cons, List.mem_cons]
        exact Or.inr hmem
    · refine le_trans ?_ hle
      by_cases hqa : q.Duration > a
      · simp [hqa]; omega
      · simp [hqa]
    · intro d hd
      simp only [List.map_cons, List.mem_cons] at hd
      rcases hd with rfl | hd
      · refine le_trans ?_ hle
        by_cases hqa : q.Duration > a
        · simp [hqa]
        · simp [hqa]; omega
      · exact hub _ hd

theorem runMin_spec (l : List SfnRecord) : ∀ a : Int,
    (runMin a l = a ∨ runMin a l ∈ l.map SfnRecord.Duration) ∧
    runMin a l ≤ a ∧ ∀ d ∈ l.map SfnRecord.Duration, runMin a l ≤ d := by
  induction l with
  | nil => intro a; simp [runMin]
  | cons q l ih =>
    intro a
    have step : runMin a (q :: l) = runMin (if q.Duration < a then q.Duration else a) l := rfl
    obtain ⟨hmem, hle, hlb⟩ := ih (if q.Duration < a then q.Duration else a)
    rw [step]
    refine ⟨?_, ?_, ?_⟩
    · rcases hmem with hmem | hmem
      · rw [hmem]
        by_cases hqa : q.Duration < a
        · simp [hqa]
        · simp [hqa]
      · right
        simp only [List.map_cons, List.mem_cons]
        exact Or.inr hmem
    · refine le_trans hle ?_
      by_cases hqa : q.Duration < a
      · simp [hqa]; omega
      · simp [hqa]
    · intro d hd
      simp only [List.map_cons, List.mem_cons] at hd
      rcases hd with rfl | hd
      · refine le_trans hle ?_
        by_cases hqa : q.Duration < a
        · simp [hqa]
        · simp [hqa]; omega
      · exact hlb _ hd

theorem runSum_shift (l : List SfnRecord) : ∀ a : Int, runSum a l = a + runSum 0 l := by
  induction l with
  | nil => intro a; simp [runSum]
  | cons q l ih =>
    intro a
    have s1 : runSum a (q :: l) = runSum (a + q.Duration) l := rfl
    have s2 : runSum 0 (q :: l) = runSum (0 + q.Duration) l := rfl
    rw [s1, s2, ih (a + q.Duration), ih (0 + q.Duration)]
    ring

theorem runSum_bounds (l : List SfnRecord) (lo hi : Int)
    (hlo : ∀ q ∈ l, lo ≤ q.Duration) (hhi : ∀ q ∈ l, q.Duration ≤ hi) :
    (l.length : Int) * lo ≤ runSum 0 l ∧ runSum 0 l ≤ (l.length : Int) * hi := by
  induction l with
  | nil => simp [runSum]
  | cons q l ih =>
    obtain ⟨h1, h2⟩ := ih (fun x hx => hlo x (List.mem_cons_of_mem q hx))
      (fun x hx => hhi x (List.mem_cons_of_mem q hx))
    have s2 : runSum 0 (q :: l) = runSum (0 + q.Duration) l := rfl
    rw [s2, runSum_shift]
    have hq1 := hlo q (List.mem_cons_self q l)
    have hq2 := hhi q (List.mem_cons_self q l)
    constructor
    · push_cast [List.length_cons]
      nlinarith
    · push_cast [List.length_cons]
      nlinarith

/-! ### Bounds on truncating division -/

theorem neg_tmod_eq (a b : Int) : Int.tmod (-a) b = -Int.tmod a b := by
  rw [Int.tmod_def, Int.tmod_def, Int.neg_tdiv]
  ring

theorem neg_lt_tmod (a : Int) {b : Int} (hb : 0 < b) : -b < Int.tmod a b := by
  by_cases ha : 0 ≤ a
  · have := Int.tmod_nonneg b ha
    omega
  · have h1 : Int.tmod (-a) b < b := Int.tmod_lt_of_pos (-a) hb
    have h2 : Int.tmod (-a) b = -Int.tmod a b := neg_tmod_eq a b
    omega

theorem le_tdiv_of_mul_le {n lo a : Int} (hn : 0 < n) (h : n * lo ≤ a) :
    lo ≤ a.tdiv n := by
  have hq := Int.tmod_add_tdiv a n
  have h1 : Int.tmod a n < n := Int.tmod_lt_of_pos a hn
  have hlt : n * lo < n * (a.tdiv n + 1) := by nlinarith
  have := lt_of_mul_lt_mul_left hlt (le_of_lt hn)
  omega

theorem tdiv_le_of_le_mul {n hi a : Int} (hn : 0 < n) (h : a ≤ n * hi) :
    a.tdiv n ≤ hi := by
  have hq := Int.tmod_add_tdiv a n
  have h2 : -n < Int.tmod a n := neg_lt_tmod a hn
  have hlt : n * (a.tdiv n - 1) < n * hi := by nlinarith
  have := lt_of_mul_lt_mul_left hlt (le_of_lt hn)
  omega

/-! ### The grouping loop of aggregate -/

theorem aggregateMap_go (r : SfnRecords) :
    ∀ (m : String → SfnRecords) (name : String),
      List.foldl (fun m q => fun k => if k = q.Name then m k ++ [q] else m k) m r name =
        m name ++ r.filter (fun q => q.Name == name) := by
  induction r with
  | nil => intro m name; simp
  | cons q r ih =>
    intro m name
    have step :
        List.foldl (fun m q => fun k => if k = q.Name then m k ++ [q] else m k) m (q :: r) name =
          List.foldl (fun m q => fun k => if k = q.Name then m k ++ [q] else m k)
            (fun k => if k = q.Name then m k ++ [q] else m k) r name := rfl
    rw [step, ih]
    by_cases h : q.Name = name
    · simp [h, List.filter_cons]
    · have h2 : ¬ name = q.Name := fun he => h he.symm
      simp [h, h2, List.filter_cons]

/-- The Go map cell at a key holds exactly the records bearing that name,
in input order. -/
theorem aggregateMap_eq_filter (r : SfnRecords) (name : String) :
    aggregateMap r name = r.filter (fun q => q.Name == name) := by
  have := aggregateMap_go r (fun _ => []) name
  simpa [aggregateMap] using this

theorem aggregateKeys_go (r : SfnRecords) :
    ∀ (ks : List String) (name : String),
      (name ∈ List.foldl (fun ks q => if q.Name ∈ ks then ks else ks ++ [q.Name]) ks r ↔
        name ∈ ks ∨ ∃ q ∈ r, q.Name = name) := by
  induction r with
  | nil => intro ks name; simp
  | cons q r ih =>
    intro ks name
    have step :
        List.foldl (fun ks q => if q.Name ∈ ks then ks else ks ++ [q.Name]) ks (q :: r) =
          List.foldl (fun ks q => if q.Name ∈ ks then ks else ks ++ [q.Name])
            (if q.Name ∈ ks then ks else ks ++ [q.Name]) r := rfl
    rw [step, ih]
    by_cases h : q.Name ∈ ks
    · simp only [if_pos h]
      constructor
      · rintro (hk | hq)
        · exact Or.inl hk
        · exact Or.inr ⟨_, by simp [hq.choose_spec.1], hq.choose_spec.2⟩
      · rintro (hk | ⟨p, hp, hpn⟩)
        · exact Or.inl hk
        · rcases List.mem_cons.mp hp with rfl | hp
          · exact Or.inl (hpn ▸ h)
          · exact Or.inr ⟨p, hp, hpn⟩
    · simp only [if_neg h, List.mem_append, List.mem_singleton]
      constructor
      · rintro ((hk | he) | hq)
        · exact Or.inl hk
        · exact Or.inr ⟨q, List.mem_cons_self q r, he.symm⟩
        · obtain ⟨p, hp, hpn⟩ := hq
          exact Or.inr ⟨p, List.mem_cons_of_mem q hp, hpn⟩
      · rintro (hk | ⟨p, hp, hpn⟩)
        · exact Or.inl (Or.inl hk)
        · rcases List.mem_cons.mp hp with rfl | hp
          · exact Or.inl (Or.inr hpn.symm)
          · exact Or.inr ⟨p, hp, hpn⟩

/-- A name is a key of the aggregate map exactly when some record bears it. -/
theorem aggregateKeys_mem (r : SfnRecords) (name : String) :
    name ∈ aggregateKeys r ↔ ∃ q ∈ r, q.Name = name := by
  have := aggregateKeys_go r [] name
  simpa [aggregateKeys] using this

/-! ### Group-level specifications of the aggregation methods -/

theorem MaxDuration_spec (g : SfnRecords) (hne : g ≠ []) :
    ∃ mx, g.MaxDuration = some mx ∧ mx ∈ g.map SfnRecord.Duration ∧
      ∀ d ∈ g.map SfnRecord.Duration, d ≤ mx := by
  match g, hne with
  | x :: xs, _ =>
    obtain ⟨hmem, hle, hub⟩ := runMax_spec (x :: xs) x.Duration
    refine ⟨runMax x.Duration (x :: xs), rfl, ?_, hub⟩
    rcases hmem with h | h
    · rw [h]; simp
    · exact h

theorem MinDuration_spec (g : SfnRecords) (hne : g ≠ []) :
    ∃ mn, g.MinDuration = some mn ∧ mn ∈ g.map SfnRecord.Duration ∧
      ∀ d ∈ g.map SfnRecord.Duration, mn ≤ d := by
  match g, hne with
  | x :: xs, _ =>
    obtain ⟨hmem, hle, hlb⟩ := runMin_spec (x :: xs) x.Duration
    refine ⟨runMin x.Duration (x :: xs), rfl, ?_, hlb⟩
    rcases hmem with h | h
    · rw [h]; simp
    · exact h

theorem runSum_eq_sum (l : List SfnRecord) : runSum 0 l = (l.map SfnRecord.Duration).sum := by
  induction l with
  | nil => simp [runSum]
  | cons q l ih =>
    have s : runSum 0 (q :: l) = runSum (0 + q.Duration) l := rfl
    rw [s, runSum_shift, ih]
    simp

/-! ### Claim C2: grouping and the aggregate statistics -/

/-- C2: aggregation groups records by name preserving per-group insertion
order (the group at a key is the subsequence of records bearing that
name); on every non-empty group, max is the largest duration, min the
smallest, avg the duration sum divided by the count, and len the record
count; the worked [10s, 20s, 30s] group renders as max "30.00", min
"10.00", avg "20.00", len "3". -/
theorem C2_aggregation (r : SfnRecords) (name : String)
    (hne : aggregateMap r name ≠ []) :
    aggregateMap r name = r.filter (fun q => q.Name == name) ∧
    (∃ mx, (aggregateMap r name).MaxDuration = some mx ∧
        mx ∈ (aggregateMap r name).map SfnRecord.Duration ∧
        ∀ d ∈ (aggregateMap r name).map SfnRecord.Duration, d ≤ mx) ∧
    (∃ mn, (aggregateMap r name).MinDuration = some mn ∧
        mn ∈ (aggregateMap r name).map SfnRecord.Duration ∧
        ∀ d ∈ (aggregateMap r name).map SfnRecord.Duration, mn ≤ d) ∧
    (aggregateMap r name).AvgDuration =
      some (Int.tdiv (((aggregateMap r name).map SfnRecord.Duration).sum)
        (((aggregateMap r name).length : Nat) : Int)) ∧
    (aggregateMap r name).Len = (aggregateMap r name).length ∧
    aggregateCsvRows
        [SfnRecord.mk "A" "2024-01-01" 10000000000 "SUCCEEDED",
         SfnRecord.mk "A" "2024-01-02" 20000000000 "SUCCEEDED",
         SfnRecord.mk "A" "2024-01-03" 30000000000 "SUCCEEDED"] =
      [["Name", "Max", "Min", "Avg", "Len"], ["A", "30.00", "10.00", "20.00", "3"]] := by
  refine ⟨aggregateMap_eq_filter r name, MaxDuration_spec _ hne, MinDuration_spec _ hne,
    ?_, rfl, by decide⟩
  cases hg : aggregateMap r name with
  | nil => exact absurd hg hne
  | cons x xs =>
    rw [← runSum_eq_sum]
    rfl

/-- Witness for C2 on a three-record group named A. -/
theorem C2_aggregation_witness :
    aggregateMap
        [SfnRecord.mk "A" "2024-01-01" 10000000000 "SUCCEEDED",
         SfnRecord.mk "A" "2024-01-02" 20000000000 "SUCCEEDED",
         SfnRecord.mk "A" "2024-01-03" 30000000000 "SUCCEEDED"] "A" ≠ [] ∧
    aggregateCsvRows
        [SfnRecord.mk "A" "2024-01-01" 10000000000 "SUCCEEDED",
         SfnRecord.mk "A" "2024-01-02" 20000000000 "SUCCEEDED",
         SfnRecord.mk "A" "2024-01-03" 30000000000 "SUCCEEDED"] =
      [["Name", "Max", "Min", "Avg", "Len"], ["A", "30.00", "10.00", "20.00", "3"]] :=
  ⟨by decide,
   (C2_aggregation
      [SfnRecord.mk "A" "2024-01-01" 10000000000 "SUCCEEDED",
       SfnRecord.mk "A" "2024-01-02" 20000000000 "SUCCEEDED",
       SfnRecord.mk "A" "2024-01-03" 30000000000 "SUCCEEDED"] "A" (by decide)).2.2.2.2.2⟩

/-! ### Claim C7: groups are never empty, so max/min/avg are defined -/

/-- C7: every key the aggregation produces owns at least one record, and on
such a group the head access of MaxDuration/MinDuration and the division
of AvgDuration are all defined (no empty-slice access, no division by
zero). -/
theorem C7_group_nonempty_total (r : SfnRecords) (name : String)
    (hk : name ∈ aggregateKeys r) :
    aggregateMap r name ≠ [] ∧
    (aggregateMap r name).MaxDuration.isSome = true ∧
    (aggregateMap r name).MinDuration.isSome = true ∧
    (aggregateMap r name).AvgDuration.isSome = true := by
  obtain ⟨q, hq, hqn⟩ := (aggregateKeys_mem r name).mp hk
  have hmem : q ∈ aggregateMap r name := by
    rw [aggregateMap_eq_filter]
    exact List.mem_filter.mpr ⟨hq, by simp [hqn]⟩
  have hne : aggregateMap r name ≠ [] := by
    intro h
    rw [h] at hmem
    exact absurd hmem (List.not_mem_nil q)
  refine ⟨hne, ?_, ?_, ?_⟩ <;>
    (cases hg : aggregateMap r name with
     | nil => exact absurd hg hne
     | cons x xs => rfl)

/-- Witness for C7 on a one-record list. -/
theorem C7_group_nonempty_total_witness :
    aggregateMap [SfnRecord.mk "A" "2024-01-01" 10000000000 "SUCCEEDED"] "A" ≠ [] ∧
    (aggregateMap [SfnRecord.mk "A" "2024-01-01" 10000000000 "SUCCEEDED"] "A").MaxDuration.isSome = true ∧
    (aggregateMap [SfnRecord.mk "A" "2024-01-01" 10000000000 "SUCCEEDED"] "A").MinDuration.isSome = true ∧
    (aggregateMap [SfnRecord.mk "A" "2024-01-01" 10000000000 "SUCCEEDED"] "A").AvgDuration.isSome = true :=
  C7_group_nonempty_total [SfnRecord.mk "A" "2024-01-01" 10000000000 "SUCCEEDED"] "A" (by decide)

/-! ### Claim C9: min <= avg <= max -/

/-- C9: on any group with defined statistics (in particular every group
the aggregation produces), the truncating-division average lies between
the minimum and the maximum duration. -/
theorem C9_min_le_avg_le_max (g : SfnRecords) (mx mn av : Int)
    (hmx : g.MaxDuration = some mx) (hmn : g.MinDuration = some mn)
    (hav : g.AvgDuration = some av) :
    mn ≤ av ∧ av ≤ mx := by
  match g with
  | [] => exact absurd hmx (by simp [SfnRecords.MaxDuration])
  | x :: xs =>
    obtain ⟨mx', hmx', hmxmem, hub⟩ := MaxDuration_spec (x :: xs) (by simp)
    obtain ⟨mn', hmn', hmnmem, hlb⟩ := MinDuration_spec (x :: xs) (by simp)
    rw [hmx'] at hmx
    rw [hmn'] at hmn
    obtain rfl : mx' = mx := Option.some.inj hmx
    obtain rfl : mn' = mn := Option.some.inj hmn
    have hav' : Int.tdiv (runSum 0 (x :: xs)) (((x :: xs).length : Nat) : Int) = av :=
      Option.some.inj hav
    obtain ⟨hlosum, hisum⟩ := runSum_bounds (x :: xs) mn' mx'
      (fun q hq => hlb q.Duration (List.mem_map_of_mem SfnRecord.Duration hq))
      (fun q hq => hub q.Duration (List.mem_map_of_mem SfnRecord.Duration hq))
    have hn : (0 : Int) < (((x :: xs).length : Nat) : Int) := by
      have : 0 < (x :: xs).length := Nat.succ_pos _
      exact_mod_cast this
    subst hav'
    exact ⟨le_tdiv_of_mul_le hn hlosum, tdiv_le_of_le_mul hn hisum⟩

/-- Witness for C9 on a concrete three-record group. -/
theorem C9_min_le_avg_le_max_witness :
    ((10000000000 : Int) ≤ 20000000000 ∧ (20000000000 : Int) ≤ 30000000000) :=
  C9_min_le_avg_le_max
    [SfnRecord.mk "A" "2024-01-01" 10000000000 "SUCCEEDED",
     SfnRecord.mk "A" "2024-01-02" 20000000000 "SUCCEEDED",
     SfnRecord.mk "A" "2024-01-03" 30000000000 "SUCCEEDED"]
    30000000000 10000000000 20000000000 (by decide) (by decide) (by decide)

/-! ### Rounding the truncated average equals rounding the exact average -/

theorem natRoundHalf (S n : Nat) (hn : 0 < n) :
    (2 * S + n * 10000000) / (n * 20000000) = (2 * (S / n) + 10000000) / 20000000 := by
  have key : ∀ t s : Nat, s < n →
      (2 * (n * t + s) + n * 10000000) / (n * 20000000) = (2 * t + 10000000) / 20000000 := by
    intro t s hsn
    set k := (2 * t + 10000000) / 20000000 with hk
    have hdm1 := Nat.div_add_mod (2 * t + 10000000) 20000000
    have hm1 : (2 * t + 10000000) % 20000000 < 20000000 := Nat.mod_lt _ (by decide)
    have h1 : 20000000 * k ≤ 2 * t + 10000000 := by omega
    have h2 : 2 * t + 10000000 + 2 ≤ 20000000 * (k + 1) := by omega
    have hmul1 := Nat.mul_le_mul_left n h1
    have hmul2 := Nat.mul_le_mul_left n h2
    refine Nat.div_eq_of_lt_le ?_ ?_
    · calc k * (n * 20000000) = n * (20000000 * k) := by ring
        _ ≤ n * (2 * t + 10000000) := hmul1
        _ ≤ 2 * (n * t + s) + n * 10000000 := by nlinarith
    · calc 2 * (n * t + s) + n * 10000000 < n * (2 * t + 10000000 + 2) := by nlinarith
        _ ≤ n * (20000000 * (k + 1)) := hmul2
        _ = (k + 1) * (n * 20000000) := by ring
  have h := key (S / n) (S % n) (Nat.mod_lt _ hn)
  rwa [Nat.div_add_mod S n] at h

theorem roundHundredths_neg_ofNat (m : Nat) :
    roundHundredths (-(m : Int)) = -((roundHundredthsNat m : Nat) : Int) := by
  rcases Nat.eq_zero_or_pos m with rfl | hm
  · decide
  · have h1 : ¬ ((0 : Int) ≤ -(m : Int)) := by
      have : (0 : Int) < m := by exact_mod_cast hm
      omega
    simp only [roundHundredths, if_neg h1, neg_neg, Int.toNat_ofNat]

/-- Rounding the truncating-division average to hundredths agrees with
rounding the exact rational average: the up-to-1ns truncation never
crosses a rounding boundary at the 1e7 ns granularity. -/
theorem roundHundredths_tdiv_eq (S : Int) (n : Nat) (hn : 0 < n) :
    roundHundredths (Int.tdiv S (n : Int)) = specExactAvgHundredths S n := by
  by_cases hS : 0 ≤ S
  · obtain ⟨M, rfl⟩ : ∃ M : Nat, S = (M : Int) := ⟨S.toNat, (Int.toNat_of_nonneg hS).symm⟩
    rw [show Int.tdiv (M : Int) (n : Int) = ((M / n : Nat) : Int) from (Int.ofNat_tdiv M n).symm]
    rw [roundHundredths, if_pos (Int.natCast_nonneg _)]
    rw [specExactAvgHundredths, if_pos (Int.natCast_nonneg _)]
    rw [Int.toNat_ofNat, Int.toNat_ofNat]
    exact_mod_cast congrArg (fun z : Nat => (z : Int)) (natRoundHalf M n hn).symm
  · push_neg at hS
    obtain ⟨M, rfl⟩ : ∃ M : Nat, S = -(M : Int) := ⟨S.natAbs, by omega⟩
    rw [show Int.tdiv (-(M : Int)) (n : Int) = -((M / n : Nat) : Int) by
      rw [Int.neg_tdiv, ← Int.ofNat_tdiv]]
    rw [roundHundredths_neg_ofNat (M / n)]
    rw [specExactAvgHundredths, if_neg (by omega : ¬ ((0 : Int) ≤ -(M : Int)))]
    rw [neg_neg, Int.toNat_ofNat]
    have := congrArg (fun z : Nat => -(z : Int)) (natRoundHalf M n hn)
    simpa [roundHundredthsNat] using this.symm

/-! ### Claim C5: the truncating average versus the exact average -/

/-- C5 counterexample: the truncation IS visible in the program's output.
For the two durations 15000000 ns and 15000001 ns the truncating division
gives an average of 15000000 ns; its float64 Seconds() value is the
double just below 0.015, which %.2f prints as "0.01", while the exact
rational average 15000000.5 ns rounds to "0.02" at 2 decimal places
under every nearest-rounding convention. -/
theorem C5_counterexample :
    SfnRecords.AvgDuration
        [SfnRecord.mk "A" "2024-01-01" 15000000 "SUCCEEDED",
         SfnRecord.mk "A" "2024-01-02" 15000001 "SUCCEEDED"] = some 15000000 ∧
    durationToSeconfString 15000000 = "0.01" ∧
    specExactAvgFormatted 30000001 2 = "0.02" ∧
    durationToSeconfString 15000000 ≠ specExactAvgFormatted 30000001 2 :=
  ⟨by decide, by decide, by decide, by decide⟩

/-- C5 (amended): the division's truncation alone never changes the
2-decimal rounding: for every non-empty group, rounding the truncated
average to hundredths of a second exactly (half away from zero, on the
nanosecond integers) coincides with the exact rational average rounded
the same way.  The output divergence exhibited by the counterexample is
introduced by the float64 formatting of Seconds(), never by the
truncating division. -/
theorem C5_avg_division_exact (g : SfnRecords) (av : Int)
    (hav : g.AvgDuration = some av) :
    renderHundredths (roundHundredths av) =
      specExactAvgFormatted ((g.map SfnRecord.Duration).sum) g.length := by
  match g with
  | [] => exact absurd hav (by simp [SfnRecords.AvgDuration])
  | x :: xs =>
    have hl : Int.tdiv (runSum 0 (x :: xs)) (((x :: xs).length : Nat) : Int) = av :=
      Option.some.inj hav
    subst hl
    rw [specExactAvgFormatted, ← runSum_eq_sum]
    exact congrArg renderHundredths
      (roundHundredths_tdiv_eq (runSum 0 (x :: xs)) (x :: xs).length (Nat.succ_pos _))

/-- Witness for C5 (amended) on the [10s, 20s, 30s] group. -/
theorem C5_avg_division_exact_witness :
    renderHundredths (roundHundredths 20000000000) = specExactAvgFormatted 60000000000 3 :=
  C5_avg_division_exact
    [SfnRecord.mk "A" "2024-01-01" 10000000000 "SUCCEEDED",
     SfnRecord.mk "A" "2024-01-02" 20000000000 "SUCCEEDED",
     SfnRecord.mk "A" "2024-01-03" 30000000000 "SUCCEEDED"]
    20000000000 (by decide)

/-! ### The reader inverts the writer -/

theorem runM_nil (s : Option CsvState) : runM s [] = s := rfl

theorem runM_cons (s : CsvState) (c : Char) (cs : List Char) :
    runM (some s) (c :: cs) = runM (csvStep s c) cs := rfl

theorem runM_append (s : Option CsvState) (l1 l2 : List Char) :
    runM s (l1 ++ l2) = runM (runM s l1) l2 :=
  List.foldl_append _ _ _ _

theorem runQuote (rows row acc cs) :
    runM (some (CsvState.mk rows row acc .quoted)) ('"' :: cs) =
      runM (some (CsvState.mk rows row acc .quoteInQuoted)) cs := rfl

theorem runQuoteCR (rows row acc cs) :
    runM (some (CsvState.mk rows row acc .quoted)) ('\r' :: cs) =
      runM (some (CsvState.mk rows row acc .crInQuoted)) cs := rfl

theorem runQuotePlain (c : Char) (hq : ¬ c = '"') (hr : ¬ c = '\r') (rows row acc cs) :
    runM (some (CsvState.mk rows row acc .quoted)) (c :: cs) =
      runM (some (CsvState.mk rows row (acc ++ [c]) .quoted)) cs := by
  rw [runM_cons]
  simp only [csvStep, if_neg hq, if_neg hr]

theorem runQQQuote (rows row acc cs) :
    runM (some (CsvState.mk rows row acc .quoteInQuoted)) ('"' :: cs) =
      runM (some (CsvState.mk rows row (acc ++ ['"']) .quoted)) cs := rfl

theorem runCRQuote (rows row acc cs) :
    runM (some (CsvState.mk rows row acc .crInQuoted)) ('"' :: cs) =
      runM (some (CsvState.mk rows row (acc ++ ['\r']) .quoteInQuoted)) cs := rfl

theorem runCRCR (rows row acc cs) :
    runM (some (CsvState.mk rows row acc .crInQuoted)) ('\r' :: cs) =
      runM (some (CsvState.mk rows row (acc ++ ['\r']) .crInQuoted)) cs := rfl

theorem runCRPlain (c : Char) (hn : ¬ c = '\n') (hq : ¬ c = '"') (hr : ¬ c = '\r')
    (rows row acc cs) :
    runM (some (CsvState.mk rows row acc .crInQuoted)) (c :: cs) =
      runM (some (CsvState.mk rows row (acc ++ ['\r', c]) .quoted)) cs := by
  rw [runM_cons]
  simp only [csvStep, if_neg hn, if_neg hq, if_neg hr]

theorem quoted_body_run (f : List Char) (hf : hasCRLF f = false) :
    ∀ rows row acc,
      (runM (some (CsvState.mk rows row acc .quoted)) (escapeQuotes f ++ ['"']) =
        some (CsvState.mk rows row (acc ++ f) .quoteInQuoted)) ∧
      (headIsLF f = false →
        runM (some (CsvState.mk rows row acc .crInQuoted)) (escapeQuotes f ++ ['"']) =
          some (CsvState.mk rows row (acc ++ '\r' :: f) .quoteInQuoted)) := by
  induction f with
  | nil =>
    intro rows row acc
    constructor
    · simp only [escapeQuotes, List.nil_append, runQuote, runM_nil, List.append_nil]
    · intro _
      simp only [escapeQuotes, List.nil_append, runCRQuote, runM_nil]
  | cons c t ih =>
    intro rows row acc
    have hsplit : (c == '\r' && headIsLF t) = false ∧ hasCRLF t = false := by
      rw [hasCRLF] at hf
      exact Bool.or_eq_false_iff.mp hf
    by_cases hc1 : c = '"'
    · subst hc1
      have e : escapeQuotes ('"' :: t) = '"' :: '"' :: escapeQuotes t := by
        simp [escapeQuotes]
      constructor
      · rw [e, List.cons_append, List.cons_append, runQuote, runQQQuote,
          (ih hsplit.2 rows row (acc ++ ['"'])).1]
        simp
      · intro _
        rw [e, List.cons_append, List.cons_append, runCRQuote, runQQQuote,
          (ih hsplit.2 rows row (acc ++ ['\r'] ++ ['"'])).1]
        simp
    · by_cases hc2 : c = '\r'
      · subst hc2
        have e : escapeQuotes ('\r' :: t) = '\r' :: escapeQuotes t := by
          simp [escapeQuotes]
        have hlf : headIsLF t = false := by
          rcases Bool.and_eq_false_iff.mp hsplit.1 with h | h
          · simp at h
          · exact h
        constructor
        · rw [e, List.cons_append, runQuoteCR, (ih hsplit.2 rows row acc).2 hlf]
        · intro _
          rw [e, List.cons_append, runCRCR, (ih hsplit.2 rows row (acc ++ ['\r'])).2 hlf]
          simp
      · have e : escapeQuotes (c :: t) = c :: escapeQuotes t := by
          simp [escapeQuotes, hc1]
        constructor
        · rw [e, List.cons_append, runQuotePlain c hc1 hc2, (ih hsplit.2 rows row (acc ++ [c])).1]
          simp
        · intro hlf
          have hcn : ¬ c = '\n' := by
            rw [headIsLF] at hlf
            simpa using hlf
          rw [e, List.cons_append, runCRPlain c hcn hc1 hc2,
            (ih hsplit.2 rows row (acc ++ ['\r', c])).1]
          simp

theorem runUnqComma (rows row acc cs) :
    runM (some (CsvState.mk rows row acc .unquoted)) (',' :: cs) =
      runM (some (CsvState.mk rows (row ++ [String.mk acc]) [] .fieldStart)) cs := rfl

theorem runUnqNL (rows row acc cs) :
    runM (some (CsvState.mk rows row acc .unquoted)) ('\n' :: cs) =
      runM (some (CsvState.mk (rows ++ [row ++ [String.mk acc]]) [] [] .lineStart)) cs := rfl

theorem runUnqPlain (c : Char) (hn : ¬ c = '\n') (hr : ¬ c = '\r') (hq : ¬ c = '"')
    (hc : ¬ c = ',') (rows row acc cs) :
    runM (some (CsvState.mk rows row acc .unquoted)) (c :: cs) =
      runM (some (CsvState.mk rows row (acc ++ [c]) .unquoted)) cs := by
  rw [runM_cons]
  simp only [csvStep, if_neg hn, if_neg hr, if_neg hq, if_neg hc]

theorem runFSComma (rows row acc cs) :
    runM (some (CsvState.mk rows row acc .fieldStart)) (',' :: cs) =
      runM (some (CsvState.mk rows (row ++ [""]) acc .fieldStart)) cs := rfl

theorem runFSNL (rows row acc cs) :
    runM (some (CsvState.mk rows row acc .fieldStart)) ('\n' :: cs) =
      runM (some (CsvState.mk (rows ++ [row ++ [""]]) [] acc .lineStart)) cs := rfl

theorem runFSQuote (rows row acc cs) :
    runM (some (CsvState.mk rows row acc .fieldStart)) ('"' :: cs) =
      runM (some (CsvState.mk rows row acc .quoted)) cs := rfl

theorem runFSPlain (c : Char) (hn : ¬ c = '\n') (hr : ¬ c = '\r') (hq : ¬ c = '"')
    (hc : ¬ c = ',') (rows row acc cs) :
    runM (some (CsvState.mk rows row acc .fieldStart)) (c :: cs) =
      runM (some (CsvState.mk rows row [c] .unquoted)) cs := by
  rw [runM_cons]
  simp only [csvStep, if_neg hn, if_neg hr, if_neg hq, if_neg hc]

theorem runLSComma (rows row acc cs) :
    runM (some (CsvState.mk rows row acc .lineStart)) (',' :: cs) =
      runM (some (CsvState.mk rows (row ++ [""]) acc .fieldStart)) cs := rfl

theorem runLSQuote (rows row acc cs) :
    runM (some (CsvState.mk rows row acc .lineStart)) ('"' :: cs) =
      runM (some (CsvState.mk rows row acc .quoted)) cs := rfl

theorem runLSPlain (c : Char) (hn : ¬ c = '\n') (hr : ¬ c = '\r') (hq : ¬ c = '"')
    (hc : ¬ c = ',') (rows row acc cs) :
    runM (some (CsvState.mk rows row acc .lineStart)) (c :: cs) =
      runM (some (CsvState.mk rows row [c] .unquoted)) cs := by
  rw [runM_cons]
  simp only [csvStep, if_neg hn, if_neg hr, if_neg hq, if_neg hc]

theorem runQQComma (rows row acc cs) :
    runM (some (CsvState.mk rows row acc .quoteInQuoted)) (',' :: cs) =
      runM (some (CsvState.mk rows (row ++ [String.mk acc]) [] .fieldStart)) cs := rfl

theorem runQQNL (rows row acc cs) :
    runM (some (CsvState.mk rows row acc .quoteInQuoted)) ('\n' :: cs) =
      runM (some (CsvState.mk (rows ++ [row ++ [String.mk acc]]) [] [] .lineStart)) cs := rfl

theorem unquoted_body_run (f : List Char) (hplain : ∀ c ∈ f, isCsvSpecial c = false) :
    ∀ rows row acc cs,
      runM (some (CsvState.mk rows row acc .unquoted)) (f ++ cs) =
        runM (some (CsvState.mk rows row (acc ++ f) .unquoted)) cs := by
  induction f with
  | nil => intro rows row acc cs; simp
  | cons c t ih =>
    intro rows row acc cs
    have hc := hplain c (List.mem_cons_self c t)
    have hn : ¬ c = '\n' := by rintro rfl; simp [isCsvSpecial] at hc
    have hr : ¬ c = '\r' := by rintro rfl; simp [isCsvSpecial] at hc
    have hq : ¬ c = '"' := by rintro rfl; simp [isCsvSpecial] at hc
    have hcm : ¬ c = ',' := by rintro rfl; simp [isCsvSpecial] at hc
    rw [List.cons_append, runUnqPlain c hn hr hq hcm,
      ih (fun x hx => hplain x (List.mem_cons_of_mem c hx))]
    simp

theorem needsQuotes_false_plain (f : List Char) (h : fieldNeedsQuotes f = false) :
    ∀ c ∈ f, isCsvSpecial c = false := by
  cases f with
  | nil => simp
  | cons c t =>
    rw [fieldNeedsQuotes] at h
    simp only [Bool.or_eq_false_iff] at h
    intro x hx
    have := List.any_eq_false.mp h.1.2 x hx
    simpa using this

theorem field_comma_fs (f : List Char) (hcr : hasCRLF f = false) (rows row cs) :
    runM (some (CsvState.mk rows row [] .fieldStart)) (writeField f ++ (',' :: cs)) =
      runM (some (CsvState.mk rows (row ++ [String.mk f]) [] .fieldStart)) cs := by
  by_cases hq : fieldNeedsQuotes f
  · rw [writeField, if_pos hq, List.cons_append, runFSQuote, runM_append,
      (quoted_body_run f hcr rows row []).1]
    simp only [List.nil_append]
    rw [runQQComma]
  · rw [writeField, if_neg hq]
    cases f with
    | nil =>
      rw [List.nil_append, runFSComma]
    | cons c t =>
      have hplain := needsQuotes_false_plain _ (by simpa using hq)
      have hc := hplain c (List.mem_cons_self c t)
      have hn : ¬ c = '\n' := by rintro rfl; simp [isCsvSpecial] at hc
      have hr : ¬ c = '\r' := by rintro rfl; simp [isCsvSpecial] at hc
      have hqq : ¬ c = '"' := by rintro rfl; simp [isCsvSpecial] at hc
      have hcm : ¬ c = ',' := by rintro rfl; simp [isCsvSpecial] at hc
      rw [List.cons_append, runFSPlain c hn hr hqq hcm,
        unquoted_body_run t (fun x hx => hplain x (List.mem_cons_of_mem c hx)) rows row [c]
          (',' :: cs),
        runUnqComma]
      rfl

theorem field_nl_fs (f : List Char) (hcr : hasCRLF f = false) (rows row cs) :
    runM (some (CsvState.mk rows row [] .fieldStart)) (writeField f ++ ('\n' :: cs)) =
      runM (some (CsvState.mk (rows ++ [row ++ [String.mk f]]) [] [] .lineStart)) cs := by
  by_cases hq : fieldNeedsQuotes f
  · rw [writeField, if_pos hq, List.cons_append, runFSQuote, runM_append,
      (quoted_body_run f hcr rows row []).1]
    simp only [List.nil_append]
    rw [runQQNL]
  · rw [writeField, if_neg hq]
    cases f with
    | nil =>
      rw [List.nil_append, runFSNL]
    | cons c t =>
      have hplain := needsQuotes_false_plain _ (by simpa using hq)
      have hc := hplain c (List.mem_cons_self c t)
      have hn : ¬ c = '\n' := by rintro rfl; simp [isCsvSpecial] at hc
      have hr : ¬ c = '\r' := by rintro rfl; simp [isCsvSpecial] at hc
      have hqq : ¬ c = '"' := by rintro rfl; simp [isCsvSpecial] at hc
      have hcm : ¬ c = ',' := by rintro rfl; simp [isCsvSpecial] at hc
      rw [List.cons_append, runFSPlain c hn hr hqq hcm,
        unquoted_body_run t (fun x hx => hplain x (List.mem_cons_of_mem c hx)) rows row [c]
          ('\n' :: cs),
        runUnqNL]
      rfl

theorem field_comma_ls (f : List Char) (hcr : hasCRLF f = false) (rows row cs) :
    runM (some (CsvState.mk rows row [] .lineStart)) (writeField f ++ (',' :: cs)) =
      runM (some (CsvState.mk rows (row ++ [String.mk f]) [] .fieldStart)) cs := by
  by_cases hq : fieldNeedsQuotes f
  · rw [writeField, if_pos hq, List.cons_append, runLSQuote, runM_append,
      (quoted_body_run f hcr rows row []).1]
    simp only [List.nil_append]
    rw [runQQComma]
  · rw [writeField, if_neg hq]
    cases f with
    | nil =>
      rw [List.nil_append, runLSComma]
    | cons c t =>
      have hplain := needsQuotes_false_plain _ (by simpa using hq)
      have hc := hplain c (List.mem_cons_self c t)
      have hn : ¬ c = '\n' := by rintro rfl; simp [isCsvSpecial] at hc
      have hr : ¬ c = '\r' := by rintro rfl; simp [isCsvSpecial] at hc
      have hqq : ¬ c = '"' := by rintro rfl; simp [isCsvSpecial] at hc
      have hcm : ¬ c = ',' := by rintro rfl; simp [isCsvSpecial] at hc
      rw [List.cons_append, runLSPlain c hn hr hqq hcm,
        unquoted_body_run t (fun x hx => hplain x (List.mem_cons_of_mem c hx)) rows row [c]
          (',' :: cs),
        runUnqComma]
      rfl

theorem field_nl_ls (f : List Char) (hcr : hasCRLF f = false) (hne : f ≠ []) (rows row cs) :
    runM (some (CsvState.mk rows row [] .lineStart)) (writeField f ++ ('\n' :: cs)) =
      runM (some (CsvState.mk (rows ++ [row ++ [String.mk f]]) [] [] .lineStart)) cs := by
  by_cases hq : fieldNeedsQuotes f
  · rw [writeField, if_pos hq, List.cons_append, runLSQuote, runM_append,
      (quoted_body_run f hcr rows row []).1]
    simp only [List.nil_append]
    rw [runQQNL]
  · rw [writeField, if_neg hq]
    cases f with
    | nil => exact absurd rfl hne
    | cons c t =>
      have hplain := needsQuotes_false_plain _ (by simpa using hq)
      have hc := hplain c (List.mem_cons_self c t)
      have hn : ¬ c = '\n' := by rintro rfl; simp [isCsvSpecial] at hc
      have hr : ¬ c = '\r' := by rintro rfl; simp [isCsvSpecial] at hc
      have hqq : ¬ c = '"' := by rintro rfl; simp [isCsvSpecial] at hc
      have hcm : ¬ c = ',' := by rintro rfl; simp [isCsvSpecial] at hc
      rw [List.cons_append, runLSPlain c hn hr hqq hcm,
        unquoted_body_run t (fun x hx => hplain x (List.mem_cons_of_mem c hx)) rows row [c]
          ('\n' :: cs),
        runUnqNL]
      rfl

theorem fields_run : ∀ (fs : List String), fs ≠ [] →
    (∀ g ∈ fs, hasCRLF g.data = false) → ∀ rows row cs,
    runM (some (CsvState.mk rows row [] .fieldStart))
        ((joinFields (fs.map (fun g => writeField g.data)) ++ ['\n']) ++ cs) =
      runM (some (CsvState.mk (rows ++ [row ++ fs]) [] [] .lineStart)) cs := by
  intro fs
  induction fs with
  | nil => intro h; exact absurd rfl h
  | cons g rest ih =>
    intro _ hcr rows row cs
    cases rest with
    | nil =>
      have e : joinFields ([g].map (fun g => writeField g.data)) = writeField g.data := rfl
      rw [e, List.append_assoc, List.singleton_append,
        field_nl_fs g.data (hcr g (List.mem_cons_self g [])) rows row cs]
    | cons g2 r2 =>
      have e : joinFields ((g :: g2 :: r2).map (fun x => writeField x.data)) =
          writeField g.data ++
            ',' :: joinFields ((g2 :: r2).map (fun x => writeField x.data)) := rfl
      rw [e]
      have massage :
          (writeField g.data ++
              ',' :: joinFields ((g2 :: r2).map (fun x => writeField x.data)) ++ ['\n']) ++ cs =
            writeField g.data ++
              (',' :: ((joinFields ((g2 :: r2).map (fun x => writeField x.data)) ++ ['\n']) ++ cs)) := by
        simp
      rw [massage, field_comma_fs g.data (hcr g (List.mem_cons_self g (g2 :: r2))) rows row,
        ih (by intro h; exact List.noConfusion h)
          (fun x hx => hcr x (List.mem_cons_of_mem g hx)) rows (row ++ [g]) cs]
      simp

theorem row_run (fields : List String) (hne : fields ≠ []) (hblank : fields ≠ [""])
    (hcr : ∀ g ∈ fields, hasCRLF g.data = false) (rows : List (List String)) (cs : List Char) :
    runM (some (CsvState.mk rows [] [] .lineStart)) (csvWriteRow fields ++ cs) =
      runM (some (CsvState.mk (rows ++ [fields]) [] [] .lineStart)) cs := by
  cases fields with
  | nil => exact absurd rfl hne
  | cons g rest =>
    cases rest with
    | nil =>
      have hgne : g.data ≠ [] := by
        intro h
        apply hblank
        cases g with
        | mk d =>
          have hd : d = [] := h
          subst hd
          rfl
      have e : csvWriteRow [g] = writeField g.data ++ ['\n'] := rfl
      rw [e, List.append_assoc, List.singleton_append,
        field_nl_ls g.data (hcr g (List.mem_cons_self g [])) hgne rows [] cs]
      simp
    | cons g2 r2 =>
      have e : csvWriteRow (g :: g2 :: r2) =
          writeField g.data ++
            ',' :: joinFields ((g2 :: r2).map (fun x => writeField x.data)) ++ ['\n'] := rfl
      rw [e]
      have massage :
          (writeField g.data ++
              ',' :: joinFields ((g2 :: r2).map (fun x => writeField x.data)) ++ ['\n']) ++ cs =
            writeField g.data ++
              (',' :: ((joinFields ((g2 :: r2).map (fun x => writeField x.data)) ++ ['\n']) ++ cs)) := by
        simp
      rw [massage, field_comma_ls g.data (hcr g (List.mem_cons_self g (g2 :: r2))) rows [],
        fields_run (g2 :: r2) (by intro h; exact List.noConfusion h)
          (fun x hx => hcr x (List.mem_cons_of_mem g hx)) rows ([] ++ [String.mk g.data]) cs]
      rfl

theorem rows_run (rows : List (List String))
    (hshape : ∀ row ∈ rows, row ≠ [] ∧ row ≠ [""])
    (hcr : ∀ row ∈ rows, ∀ g ∈ row, hasCRLF g.data = false) :
    ∀ done, runM (some (CsvState.mk done [] [] .lineStart)) (csvWrite rows) =
      some (CsvState.mk (done ++ rows) [] [] .lineStart) := by
  induction rows with
  | nil => intro done; simp [csvWrite, runM_nil]
  | cons r rs ih =>
    intro done
    have e : csvWrite (r :: rs) = csvWriteRow r ++ csvWrite rs := by
      simp [csvWrite]
    rw [e, row_run r (hshape r (List.mem_cons_self r rs)).1 (hshape r (List.mem_cons_self r rs)).2
        (hcr r (List.mem_cons_self r rs)) done (csvWrite rs),
      ih (fun x hx => hshape x (List.mem_cons_of_mem r hx))
        (fun x hx => hcr x (List.mem_cons_of_mem r hx)) (done ++ [r])]
    simp

/-- Writing a list of same-arity, non-degenerate rows and reading the file
back returns exactly the written rows. -/
theorem csv_roundtrip (rows : List (List String))
    (hshape : ∀ row ∈ rows, row ≠ [] ∧ row ≠ [""])
    (hcr : ∀ row ∈ rows, ∀ g ∈ row, hasCRLF g.data = false)
    (hlen : ∀ row ∈ rows, ∀ row2 ∈ rows, row.length = row2.length) :
    csvParse (csvWrite rows) = some rows := by
  have hrun := rows_run rows hshape hcr []
  rw [List.nil_append] at hrun
  cases rows with
  | nil => rfl
  | cons r0 rest =>
    have hall : rest.all (fun r => r.length == r0.length) = true := by
      rw [List.all_eq_true]
      intro r hr
      have := hlen r (List.mem_cons_of_mem r0 hr) r0 (List.mem_cons_self r0 rest)
      exact Nat.beq_eq_true_eq _ _ |>.mpr this
    simp [csvParse, hrun, csvFinish, hall]

/-! ### Claim C8: the raw CSV round-trips -/

theorem rawCsvRows_length (records : SfnRecords) :
    ∀ row ∈ rawCsvRows records, row.length = 4 := by
  intro row hrow
  rcases List.mem_cons.mp hrow with rfl | hmem
  · rfl
  · obtain ⟨q, _, rfl⟩ := List.mem_map.mp hmem
    rfl

/-- C8 counterexample: a record whose name contains a CR-LF pair is
written quoted, but the reader normalizes the pair to a lone LF, so the
parsed row differs from the written one. -/
theorem C8_counterexample :
    csvParse (csvWrite (rawCsvRows [SfnRecord.mk "a\r\nb" "2024-01-01" 0 "SUCCEEDED"])) ≠
      some (rawCsvRows [SfnRecord.mk "a\r\nb" "2024-01-01" 0 "SUCCEEDED"]) ∧
    csvParse (csvWrite (rawCsvRows [SfnRecord.mk "a\r\nb" "2024-01-01" 0 "SUCCEEDED"])) =
      some [["Name", "StartDate", "Duration", "Status"],
            ["a\nb", "2024-01-01", "0.00", "SUCCEEDED"]] :=
  ⟨by decide, by decide⟩

/-- C8 (amended): for every record list none of whose field strings
contains a CR immediately followed by an LF, writing the raw CSV and
parsing it back yields exactly the header row followed by one data row
per record, in order - the original row list. -/
theorem C8_roundtrip (records : SfnRecords)
    (hok : ∀ q ∈ records, hasCRLF q.Name.data = false ∧ hasCRLF q.StartDate.data = false ∧
        hasCRLF q.StringDurationSecond.data = false ∧ hasCRLF q.Status.data = false) :
    csvParse (csvWrite (rawCsvRows records)) = some (rawCsvRows records) := by
  apply csv_roundtrip
  · intro row hrow
    rcases List.mem_cons.mp hrow with rfl | hmem
    · exact ⟨by decide, by decide⟩
    · obtain ⟨q, _, rfl⟩ := List.mem_map.mp hmem
      constructor
      · simp
      · simp
  · intro row hrow
    rcases List.mem_cons.mp hrow with rfl | hmem
    · intro g hg
      simp only [List.mem_cons, List.not_mem_nil, or_false] at hg
      rcases hg with rfl | rfl | rfl | rfl <;> decide
    · obtain ⟨q, hq, rfl⟩ := List.mem_map.mp hmem
      intro g hg
      obtain ⟨h1, h2, h3, h4⟩ := hok q hq
      simp only [List.mem_cons, List.not_mem_nil, or_false] at hg
      rcases hg with rfl | rfl | rfl | rfl <;> assumption
  · intro row hrow row2 hrow2
    rw [rawCsvRows_length records row hrow, rawCsvRows_length records row2 hrow2]

/-- Witness for C8 (amended) on a one-record list. -/
theorem C8_roundtrip_witness :
    csvParse (csvWrite (rawCsvRows [SfnRecord.mk "A" "2024-01-01" 60000000000 "SUCCEEDED"])) =
      some (rawCsvRows [SfnRecord.mk "A" "2024-01-01" 60000000000 "SUCCEEDED"]) :=
  C8_roundtrip [SfnRecord.mk "A" "2024-01-01" 60000000000 "SUCCEEDED"] (by decide)

/-! ### Claim C10: the empty record list still succeeds -/

/-- C10: with no records, the raw CSV holds only its fixed header row, the
aggregation map is empty (no keys, every cell empty), the aggregate CSV
holds only its fixed header row, and both header-only files parse back
unchanged (the writes succeed and are well-formed). -/
theorem C10_empty_pipeline :
    rawCsvRows [] = [["Name", "StartDate", "Duration", "Status"]] ∧
    aggregateKeys [] = [] ∧
    (∀ name, aggregateMap [] name = []) ∧
    aggregateCsvRows [] = [["Name", "Max", "Min", "Avg", "Len"]] ∧
    csvParse (csvWrite (rawCsvRows [])) = some (rawCsvRows []) ∧
    csvParse (csvWrite (aggregateCsvRows [])) = some (aggregateCsvRows []) :=
  ⟨rfl, rfl, fun _ => rfl, rfl, by decide, by decide⟩
